import Mathlib

/-!
Verification of the go-mp3 decoder (github.com/llehouerou/go-mp3) against its
natural-language specification.

This file contains a shallow embedding, in Lean 4, of the parts of the Go
source that the specification's claims are about:

* the bit reader (`internal/bits`): structure `Bits` and its operations;
* the Huffman spectrum reader `readHuffman` (`internal/maindata`);
* the side-information parser `sideinfo.Read` (`internal/sideinfo`);
* the short-block branch of the IMDCT windowing function `imdct.Win`
  (`internal/imdct`);
* the public `Decoder.Seek` method (`decode.go`).

Go machine integers are modelled as `Nat`/`Int` with explicit `% 2 ^ 32`
where the Go code relies on 32-bit wraparound.  Byte buffers are `List Nat`
with every element `< 256`.  Fixed-size Go arrays are `List` values whose
writes go through explicit index-checked helpers.  Functions of the
repository that are not part of the analysed sources (the `consts`,
`huffman` and `frameheader` packages) enter either as explicit parameters
or as definitions modelled from the specification; each such definition is
marked in its doc comment.
-/

/-! ## Bit reader (`internal/bits`, struct `Bits`)

The Go struct has fields `vec []byte`, `bitPos int`, `bytePos int` and
`err error`.  The error is either absent or the single value
`ErrOutOfBounds`, so it is modelled as a `Bool`. -/

structure Bits where
  vec : List Nat
  bytePos : Nat
  bitPos : Nat
  err : Bool
deriving DecidableEq, Repr

/-- Embedding of `bits.New`. -/
def Bits.New (vec : List Nat) : Bits :=
  { vec := vec, bytePos := 0, bitPos := 0, err := false }

/-- Embedding of the method `Bits.Bit`: reads one bit MSB-first and advances;
out of bounds it returns 0 and latches the error flag. -/
def Bits.Bit (b : Bits) : Nat × Bits :=
  if b.vec.length ≤ b.bytePos then
    (0, { b with err := true })
  else
    let tmp := b.vec.getD b.bytePos 0 / 2 ^ (7 - b.bitPos) % 2
    (tmp, { b with bytePos := b.bytePos + (b.bitPos + 1) / 8,
                   bitPos := (b.bitPos + 1) % 8 })

/-- The 32-bit big-endian accumulator the Go method `Bits.Bits` builds from
the four bytes starting at `bp` (`copy` pads missing bytes with zeros, which
is exactly `List.getD _ _ 0`). -/
def chunk32 (vec : List Nat) (bp : Nat) : Nat :=
  vec.getD bp 0 * 2 ^ 24 + vec.getD (bp + 1) 0 * 2 ^ 16 +
    vec.getD (bp + 2) 0 * 2 ^ 8 + vec.getD (bp + 3) 0

/-- Embedding of the method `Bits.Bits(num)`: `tmp <<= bitPos` on a `uint32`
is `* 2 ^ bitPos % 2 ^ 32`, and `tmp >>= 32 - num` is `/ 2 ^ (32 - num)`. -/
def Bits.BitsN (b : Bits) (num : Nat) : Nat × Bits :=
  if num = 0 then (0, b)
  else if 8 * b.vec.length < b.bytePos * 8 + b.bitPos + num then
    (0, { b with err := true })
  else
    let tmp := chunk32 b.vec b.bytePos * 2 ^ b.bitPos % 2 ^ 32
    (tmp / 2 ^ (32 - num),
     { b with bytePos := b.bytePos + (b.bitPos + num) / 8,
              bitPos := (b.bitPos + num) % 8 })

/-- Embedding of the method `Bits.BitPos` (`bytePos<<3 + bitPos`). -/
def Bits.BitPos (b : Bits) : Nat :=
  b.bytePos * 8 + b.bitPos

/-- Embedding of the method `Bits.SetPos` (`pos>>3`, `pos&7`). -/
def Bits.SetPos (b : Bits) (pos : Nat) : Bits :=
  { b with bytePos := pos / 8, bitPos := pos % 8 }

/-! Specification-side description of the bit stream: bit `i` of the buffer
is bit `7 - i % 8` of byte `i / 8`, and `bitsVal vec pos n` is the integer
formed MSB-first by bits `pos, pos+1, …, pos+n-1`. -/

/-- Bit `i` of the byte buffer, MSB-first inside each byte. -/
def bitAt (vec : List Nat) (i : Nat) : Nat :=
  vec.getD (i / 8) 0 / 2 ^ (7 - i % 8) % 2

/-- The integer formed by `n` consecutive bits starting at `pos`, most
significant bit first. -/
def bitsVal (vec : List Nat) (pos : Nat) : Nat → Nat
  | 0 => 0
  | n + 1 => bitsVal vec pos n * 2 + bitAt vec (pos + n)

theorem byteAt_lt (vec : List Nat) (i : Nat) (hb : ∀ x ∈ vec, x < 256) :
    vec.getD i 0 < 256 := by
  rcases h : vec.getD i 0 with _ | n
  · omega
  · by_cases hi : i < vec.length
    · have := hb (vec.getD i 0) (by
        rw [List.getD_eq_getElem vec 0 hi]; exact vec.getElem_mem hi)
      omega
    · rw [List.getD_eq_default vec 0 (by omega)] at h
      omega

theorem div_mod_two_pow (x a n : Nat) :
    x % 2 ^ (a + n) / 2 ^ a = x / 2 ^ a % 2 ^ n := by
  rw [pow_add]
  exact Nat.mod_mul_right_div_self x (2 ^ a) (2 ^ n)

theorem mod_two_pow_succ (q n : Nat) :
    q % 2 ^ (n + 1) = q / 2 % 2 ^ n * 2 + q % 2 := by
  have h1 := Nat.div_add_mod q 2
  have h4 := Nat.div_add_mod (q / 2) (2 ^ n)
  have h2 : q % 2 < 2 := Nat.mod_lt _ (by norm_num)
  have h3 : q / 2 % 2 ^ n < 2 ^ n := Nat.mod_lt _ (Nat.two_pow_pos n)
  have hq : q = 2 ^ (n + 1) * (q / 2 / 2 ^ n) + (q / 2 % 2 ^ n * 2 + q % 2) := by
    rw [pow_succ]
    nlinarith [h1, h4]
  have hlt : q / 2 % 2 ^ n * 2 + q % 2 < 2 ^ (n + 1) := by
    have : 2 ^ (n + 1) = 2 ^ n * 2 := by rw [pow_succ]
    omega
  conv_lhs => rw [hq]
  rw [Nat.mul_add_mod]
  exact Nat.mod_eq_of_lt hlt

theorem chunk32_bit_core (c0 c1 c2 c3 j : Nat)
    (h0 : c0 < 256) (h1 : c1 < 256) (h2 : c2 < 256) (h3 : c3 < 256)
    (hj : j < 32) :
    (c0 * 2 ^ 24 + c1 * 2 ^ 16 + c2 * 2 ^ 8 + c3) / 2 ^ (31 - j) % 2 =
      (if j / 8 = 0 then c0 else if j / 8 = 1 then c1
        else if j / 8 = 2 then c2 else c3) / 2 ^ (7 - j % 8) % 2 := by
  interval_cases j <;> norm_num <;> omega

theorem chunk32_bit (vec : List Nat) (bp j : Nat)
    (hb : ∀ x ∈ vec, x < 256) (hj : j < 32) :
    chunk32 vec bp / 2 ^ (31 - j) % 2 = bitAt vec (bp * 8 + j) := by
  have e1 : (bp * 8 + j) / 8 = bp + j / 8 := by omega
  have e2 : (bp * 8 + j) % 8 = j % 8 := by omega
  rw [bitAt, e1, e2, chunk32,
    chunk32_bit_core _ _ _ _ j (byteAt_lt vec bp hb)
      (byteAt_lt vec (bp + 1) hb) (byteAt_lt vec (bp + 2) hb)
      (byteAt_lt vec (bp + 3) hb) hj]
  have hd : j / 8 < 4 := by omega
  interval_cases hjd : j / 8 <;> norm_num [hjd]

theorem bitsVal_chunk (vec : List Nat) (bp t : Nat)
    (hb : ∀ x ∈ vec, x < 256) :
    ∀ n, t + n ≤ 32 →
      bitsVal vec (bp * 8 + t) n = chunk32 vec bp / 2 ^ (32 - (t + n)) % 2 ^ n := by
  intro n
  induction n with
  | zero => intro _; simp [bitsVal, Nat.mod_one]
  | succ n ih =>
    intro hn
    have ih2 := ih (by omega)
    have hbit : bitAt vec (bp * 8 + t + n) = chunk32 vec bp / 2 ^ (31 - (t + n)) % 2 := by
      rw [Nat.add_assoc]
      exact (chunk32_bit vec bp (t + n) hb (by omega)).symm
    have he : 32 - (t + (n + 1)) = 31 - (t + n) := by omega
    have hq2 : chunk32 vec bp / 2 ^ (31 - (t + n)) / 2 = chunk32 vec bp / 2 ^ (32 - (t + n)) := by
      rw [Nat.div_div_eq_div_mul, ← pow_succ]
      have : 31 - (t + n) + 1 = 32 - (t + n) := by omega
      rw [this]
    rw [bitsVal, ih2, hbit, he, mod_two_pow_succ, hq2]

/-- C2 helper: the value computed by the accumulator of `Bits.Bits` equals
the MSB-first value of the requested bits, whenever those bits lie inside
the four bytes the accumulator loads (`bitPos + num ≤ 32`). -/
theorem chunk32_extract (vec : List Nat) (bp t num : Nat)
    (hb : ∀ x ∈ vec, x < 256) (hfit : t + num ≤ 32) :
    chunk32 vec bp * 2 ^ t % 2 ^ 32 / 2 ^ (32 - num) =
      bitsVal vec (bp * 8 + t) num := by
  have e32 : (32 : Nat) = (32 - t) + t := by omega
  have step1 : chunk32 vec bp * 2 ^ t % 2 ^ 32 =
      chunk32 vec bp % 2 ^ (32 - t) * 2 ^ t := by
    conv_lhs => rw [e32]
    rw [pow_add]
    exact Nat.mul_mod_mul_right (2 ^ t) (chunk32 vec bp) (2 ^ (32 - t))
  have enum : (32 : Nat) - num = (32 - t - num) + t := by omega
  have step2 : chunk32 vec bp % 2 ^ (32 - t) * 2 ^ t / 2 ^ (32 - num) =
      chunk32 vec bp % 2 ^ (32 - t) / 2 ^ (32 - t - num) := by
    rw [enum, pow_add]
    exact Nat.mul_div_mul_right _ _ (Nat.two_pow_pos t)
  have step3 : chunk32 vec bp % 2 ^ (32 - t) / 2 ^ (32 - t - num) =
      chunk32 vec bp / 2 ^ (32 - t - num) % 2 ^ num := by
    have h3 := div_mod_two_pow (chunk32 vec bp) (32 - t - num) num
    rw [show 32 - t - num + num = 32 - t from by omega] at h3
    exact h3
  have e4 : (32 : Nat) - t - num = 32 - (t + num) := by omega
  rw [step1, step2, step3, e4, bitsVal_chunk vec bp t hb num hfit]

/-- C2 (amended): for every byte buffer, in-bounds position and
`1 ≤ num ≤ 32` with `bitPos + num ≤ 32` (so the requested bits lie within
the four bytes the accumulator reads; this always holds for `num ≤ 25`),
`Bits.Bits(num)` returns the integer formed by the next `num` bits
MSB-first, advances the absolute bit position by exactly `num`, and leaves
the buffer and the error flag unchanged. -/
theorem bits_bitsN_correct (b : Bits) (num : Nat)
    (hbytes : ∀ x ∈ b.vec, x < 256)
    (h1 : 1 ≤ num)
    (hfit : b.bitPos + num ≤ 32)
    (hin : b.bytePos * 8 + b.bitPos + num ≤ 8 * b.vec.length) :
    (b.BitsN num).1 = bitsVal b.vec (b.bytePos * 8 + b.bitPos) num ∧
    (b.BitsN num).2.BitPos = b.BitPos + num ∧
    (b.BitsN num).2.err = b.err ∧ (b.BitsN num).2.vec = b.vec := by
  rw [Bits.BitsN, if_neg (by omega), if_neg (by omega)]
  refine ⟨?_, ?_, rfl, rfl⟩
  · exact chunk32_extract b.vec b.bytePos b.bitPos num hbytes hfit
  · simp only [Bits.BitPos]
    omega

/-- C2 witness: the amended theorem applied to the concrete buffer
`[0xAB, 0xCD]` at position 4, reading 8 bits (value `0xBC`). -/
theorem bits_bitsN_correct_witness :
    (∀ x ∈ [171, 205], x < 256) ∧
    ((Bits.mk [171, 205] 0 4 false).BitsN 8).1 =
      bitsVal [171, 205] 4 8 ∧
    ((Bits.mk [171, 205] 0 4 false).BitsN 8).2.BitPos =
      (Bits.mk [171, 205] 0 4 false).BitPos + 8 ∧
    ((Bits.mk [171, 205] 0 4 false).BitsN 8).1 = 188 := by
  have h := bits_bitsN_correct (Bits.mk [171, 205] 0 4 false) 8
    (by decide) (by decide) (by decide) (by decide)
  exact ⟨by decide, h.1, h.2.1, by decide⟩

/-- C2 counterexample: a request that straddles five bytes.  With buffer
`[0, 0, 0, 0, 0xFF]` at absolute bit position 4, the next 32 bits are
`0x0000000F`, but `Bits.Bits(32)` reads only the four bytes starting at the
current byte and returns 0: the bits of the fifth byte are lost.  The
position is in bounds (40 bits available, bits 4..35 requested). -/
theorem bits_bitsN_five_byte_counterexample :
    ((Bits.mk [0, 0, 0, 0, 255] 0 4 false).BitsN 32).1 = 0 ∧
    bitsVal [0, 0, 0, 0, 255] 4 32 = 15 ∧
    (0 : Nat) ≠ 15 := by
  refine ⟨by decide, by decide, by decide⟩

/-! ## C5: out-of-bounds reads and error stickiness

`Bits.Err` returns the `err` field; nothing in the Go package ever clears
it, so once latched it survives every later operation.  The operations that
mutate a `Bits` value in place are `Bit`, `Bits` and `SetPos`. -/

/-- One mutating bit-reader operation, for stating stickiness over an
arbitrary operation sequence. -/
inductive ROp where
  | rbit : ROp
  | rbits : Nat → ROp
  | rsetPos : Nat → ROp

/-- Run one operation, keeping only the mutated reader. -/
def rstep (b : Bits) : ROp → Bits
  | ROp.rbit => b.Bit.2
  | ROp.rbits n => (b.BitsN n).2
  | ROp.rsetPos p => b.SetPos p

/-- Run a sequence of bit-reader operations. -/
def rrun (b : Bits) (ops : List ROp) : Bits :=
  ops.foldl rstep b

theorem rstep_err (b : Bits) (op : ROp) (h : b.err = true) :
    (rstep b op).err = true := by
  cases op with
  | rbit =>
    rw [rstep, Bits.Bit]
    split <;> simp [h]
  | rbits n =>
    rw [rstep, Bits.BitsN]
    split
    · exact h
    · split <;> simp [h]
  | rsetPos p => simpa [rstep, Bits.SetPos] using h

/-- C5: an out-of-bounds `Bit` or `Bits(n)` request returns 0 and latches
the error flag, and the flag is sticky: once `err` is set, it is still set
after any sequence of further operations (no later read clears it, so
`Err()` keeps returning the out-of-bounds error). -/
theorem bits_oob_sticky (b : Bits) (n : Nat) (ops : List ROp) :
    (b.vec.length ≤ b.bytePos → b.Bit.1 = 0 ∧ b.Bit.2.err = true) ∧
    (1 ≤ n → 8 * b.vec.length < b.bytePos * 8 + b.bitPos + n →
      (b.BitsN n).1 = 0 ∧ (b.BitsN n).2.err = true) ∧
    (b.err = true → (rrun b ops).err = true) := by
  refine ⟨?_, ?_, ?_⟩
  · intro h
    rw [Bits.Bit, if_pos h]
    exact ⟨rfl, rfl⟩
  · intro h1 h2
    rw [Bits.BitsN, if_neg (by omega), if_pos h2]
    exact ⟨rfl, rfl⟩
  · intro h
    induction ops generalizing b with
    | nil => simpa [rrun] using h
    | cons op rest ih =>
      rw [rrun, List.foldl_cons]
      exact ih (rstep b op) (rstep_err b op h)

/-- C5 witness: concrete reader past the end of a 1-byte buffer; the
out-of-bounds results and stickiness through a concrete operation list. -/
theorem bits_oob_sticky_witness :
    ((Bits.mk [7] 1 0 false).Bit.1 = 0 ∧ (Bits.mk [7] 1 0 false).Bit.2.err = true) ∧
    ((Bits.mk [7] 1 0 false).BitsN 3).1 = 0 ∧
    ((Bits.mk [7] 1 0 false).BitsN 3).2.err = true ∧
    (rrun (Bits.mk [7] 1 0 true) [ROp.rbit, ROp.rbits 2, ROp.rsetPos 0]).err = true := by
  have h1 := bits_oob_sticky (Bits.mk [7] 1 0 false) 3
    [ROp.rbit, ROp.rbits 2, ROp.rsetPos 0]
  have h2 := bits_oob_sticky (Bits.mk [7] 1 0 true) 3
    [ROp.rbit, ROp.rbits 2, ROp.rsetPos 0]
  exact ⟨h1.1 (by decide), (h1.2.1 (by decide) (by decide)).1,
    (h1.2.1 (by decide) (by decide)).2, h2.2.2 rfl⟩

/-! ## C3: short-block branch of `imdct.Win`

`imdct.Win` with `blockType == 2` computes, for each of the three short
windows `i ∈ {0,1,2}` and each output point `p ∈ 0..11`, a 12-point IMDCT
sum over the 6 interleaved input lines `in[i+3m]`, multiplies it by the
short window `imdctWinData[2][p]`, and accumulates it with `+=` at output
index `6*i + p + 6`.  The float32 tables `cosN12` and `imdctWinData[2]`
are built from `math.Sin`/`math.Cos` at init time; the embedding is exact
over `ℚ` and takes the two tables as parameters, which is sound for the
claim because the claim concerns only the placement and summation
structure, which is independent of the table values. -/

/-- `out[idx] += v` on a functionally represented output array. -/
def accumCell (out : Nat → ℚ) (idx : Nat) (v : ℚ) : Nat → ℚ :=
  fun k => if k = idx then out k + v else out k

/-- The 12-point IMDCT sum of the Go loop: `sum += in[i+3*m] * cosN12[m][p]`
for `m ∈ 0..5`. -/
def imdctShortTerm (cos12 : Nat → Nat → ℚ) (inp : Nat → ℚ) (i p : Nat) : ℚ :=
  ∑ m ∈ Finset.range 6, inp (i + 3 * m) * cos12 m p

/-- Embedding of the `blockType == 2` branch of `imdct.Win`: the nested
loops `for i := range 3 { for p := range 12 { out[6*i+p+6] += sum*iwd[p] } }`
over a zero-initialised 36-sample output. -/
def winShort (cos12 : Nat → Nat → ℚ) (iwd : Nat → ℚ) (inp : Nat → ℚ) : Nat → ℚ :=
  (List.range 3).foldl
    (fun o i => (List.range 12).foldl
      (fun o2 p => accumCell o2 (6 * i + p + 6) (imdctShortTerm cos12 inp i p * iwd p)) o)
    (fun _ => 0)

/-- Placement of three windowed 12-point IMDCTs at offsets `off 0`, `off 1`,
`off 2`, summing overlaps.  With `off i = 6*i` this follows the
specification's words (offsets 0, 6, 12); with `off i = 6*i + 6` it is the
code's placement (offsets 6, 12, 18). -/
def winShortPlaced (off : Nat → Nat) (cos12 : Nat → Nat → ℚ) (iwd : Nat → ℚ)
    (inp : Nat → ℚ) : Nat → ℚ :=
  fun k => ∑ i ∈ Finset.range 3, ∑ p ∈ Finset.range 12,
    if off i + p = k then imdctShortTerm cos12 inp i p * iwd p else 0

theorem foldl_accumCell (f : Nat → ℚ) (idx : Nat → Nat) (v : Nat → ℚ) :
    ∀ n k, ((List.range n).foldl (fun o p => accumCell o (idx p) (v p)) f) k =
      f k + ∑ p ∈ Finset.range n, if idx p = k then v p else 0 := by
  intro n
  induction n with
  | zero => simp
  | succ n ih =>
    intro k
    rw [List.range_succ, List.foldl_append, List.foldl_cons, List.foldl_nil,
      Finset.sum_range_succ]
    simp only [accumCell]
    by_cases h : k = idx n
    · rw [if_pos h, ih, if_pos h.symm]
      ring
    · rw [if_neg h, ih, if_neg (fun hh => h hh.symm)]
      ring

theorem foldl_accumCell2 (f : Nat → ℚ) (idx : Nat → Nat → Nat)
    (v : Nat → Nat → ℚ) (m : Nat) :
    ∀ n k, ((List.range n).foldl
        (fun o i => (List.range m).foldl
          (fun o2 p => accumCell o2 (idx i p) (v i p)) o) f) k =
      f k + ∑ i ∈ Finset.range n, ∑ p ∈ Finset.range m,
        if idx i p = k then v i p else 0 := by
  intro n
  induction n with
  | zero => simp
  | succ n ih =>
    intro k
    rw [List.range_succ, List.foldl_append, List.foldl_cons, List.foldl_nil,
      Finset.sum_range_succ, foldl_accumCell _ (idx n) (v n) m k, ih]
    ring

/-- C3 (amended): the short-block branch of `imdct.Win` computes three
12-point IMDCTs, windows each with the short window, and places them at
offsets 6, 12 and 18 of the 36-sample output (not 0, 6, 12), summing the
samples where the windows overlap; output samples 0..5 and 30..35 are
zero. -/
theorem winShort_places_at_6_12_18 (cos12 : Nat → Nat → ℚ) (iwd : Nat → ℚ)
    (inp : Nat → ℚ) (k : Nat) :
    winShort cos12 iwd inp k =
      winShortPlaced (fun i => 6 * i + 6) cos12 iwd inp k := by
  rw [winShort, winShortPlaced,
    foldl_accumCell2 (fun _ => 0) (fun i p => 6 * i + p + 6)
      (fun i p => imdctShortTerm cos12 inp i p * iwd p) 12 3 k]
  rw [zero_add]
  refine Finset.sum_congr rfl fun i _ => Finset.sum_congr rfl fun p _ => ?_
  have e : 6 * i + p + 6 = 6 * i + 6 + p := by omega
  rw [e]

/-- C3 counterexample: with all-ones stand-ins for the tables and the
input, placement at offsets 0, 6, 12 (the claim's words) would make output
sample 0 equal to 6, but the code's output sample 0 is 0: the code places
the three windows at offsets 6, 12, 18. -/
theorem winShort_offsets_counterexample :
    winShort (fun _ _ => 1) (fun _ => 1) (fun _ => 1) 0 = 0 ∧
    winShortPlaced (fun i => 6 * i) (fun _ _ => 1) (fun _ => 1) (fun _ => 1) 0 = 6 ∧
    (0 : ℚ) ≠ 6 := by
  refine ⟨?_, ?_, by norm_num⟩
  · rw [winShort,
      foldl_accumCell2 (fun _ => 0) (fun i p => 6 * i + p + 6)
        (fun i p => imdctShortTerm (fun _ _ => 1) (fun _ => 1) i p * 1) 12 3 0]
    rw [zero_add]
    refine Finset.sum_eq_zero fun i _ => Finset.sum_eq_zero fun p _ => ?_
    rw [if_neg (by omega)]
  · rw [winShortPlaced]
    norm_num [imdctShortTerm, Finset.sum_range_succ]

/-! ## `readHuffman` (`internal/maindata`)

The per-granule/channel spectrum reader.  The missing `huffman` package's
`Decode` enters as a parameter `decode : HuffDecode` (it reads bits from
the given reader and returns the four sample values `x, y, v, w` and the
advanced reader, or fails); `readHuffman`'s own behaviour — region bounds,
loop guards, rollback, zero fill, cursor realignment — is embedded from the
source.  The 576-entry Go array `mainData.Is[gr][ch]` is a `List Int`
(`float32(x)` of the small Huffman integers is exact); every write goes
through `setIs`, which also latches an instrumentation flag `oob` when the
written index is outside the Go array (which in Go would panic). -/

inductive HuffErr where
  | invalidIndexI : HuffErr
  | invalidIndexJ : HuffErr
  | isPosTooBig : HuffErr
  | decodeFailed : HuffErr
deriving DecidableEq, Repr

/-- State threaded through `readHuffman`: the main-data bit reader, the
`Is` array, the computed `Count1`, and the out-of-bounds write flag. -/
structure HuffState where
  m : Bits
  is : List Int
  count1 : Nat
  oob : Bool
deriving DecidableEq, Repr

/-- `mainData.Is[gr][ch][idx] = v`, recording whether the index is outside
the 576-entry array. -/
def setIs (st : HuffState) (idx : Nat) (v : Int) : HuffState :=
  { st with is := st.is.set idx v, oob := st.oob || decide (576 ≤ idx) }

/-- Interface of the missing `huffman.Decode`: given a table number and the
reader, produce `(x, y, v, w)` and the advanced reader, or fail. -/
abbrev HuffDecode := Nat → Bits → Option (Int × Int × Int × Int × Bits)

/-- The side-information fields of one granule/channel that `readHuffman`
reads (fields of the Go `SideInfo` struct at a fixed `[gr][ch]`). -/
structure SideInfoGr where
  part2_3Length : Nat
  bigValues : Nat
  winSwitchFlag : Nat
  blockType : Nat
  region0Count : Nat
  region1Count : Nat
  tableSelect0 : Nat
  tableSelect1 : Nat
  tableSelect2 : Nat
  count1TableSelect : Nat

/-- Modelled from the spec: the long-block scalefactor-band index table of
the missing `consts` package, `SfBandIndices[0][0][SfBandIndicesLong]`
(MPEG1, 44.1 kHz).  The spec fixes 23 entries (last index 22) ending at
576; the values are the standard ISO 11172-3 band boundaries. -/
def sfBandLongMpeg1_44 : List Nat :=
  [0, 4, 8, 12, 16, 20, 24, 30, 36, 44, 52, 62, 74, 90, 110, 134,
   162, 196, 238, 288, 342, 418, 576]

/-- Region boundary computation of `readHuffman` (lines 107-129 of the Go
source): short-block case fixes `(36, 576)`; otherwise the long
scalefactor-band table `l` is consulted, and an index `i` or `j` at or past
`len(l)` is an error (`"invalid index"`), not a clamp. -/
def huffmanRegions (l : List Nat) (si : SideInfoGr) : Except HuffErr (Nat × Nat) :=
  if si.winSwitchFlag = 1 ∧ si.blockType = 2 then Except.ok (36, 576)
  else if l.length ≤ si.region0Count + 1 then Except.error HuffErr.invalidIndexI
  else if l.length ≤ si.region0Count + si.region1Count + 2 then
    Except.error HuffErr.invalidIndexJ
  else Except.ok (l.getD (si.region0Count + 1) 0,
    l.getD (si.region0Count + si.region1Count + 2) 0)

/-- The big-values pair loop of `readHuffman`: while `isPos < 2*bigValues`,
check `isPos ≥ 576` (error), select the table by region, decode, and write
`x` at `isPos` and `y` at `isPos+1`. -/
def bigValuesLoop (decode : HuffDecode) (t0 t1 t2 r1 r2 bound : Nat)
    (isPos : Nat) (st : HuffState) : HuffState × Nat × Option HuffErr :=
  if h : isPos < bound then
    if 576 ≤ isPos then (st, isPos, some HuffErr.isPosTooBig)
    else
      match decode (if isPos < r1 then t0 else if isPos < r2 then t1 else t2) st.m with
      | none => (st, isPos, some HuffErr.decodeFailed)
      | some (x, y, _, _, m2) =>
        bigValuesLoop decode t0 t1 t2 r1 r2 bound (isPos + 2)
          (setIs (setIs { st with m := m2 } isPos x) (isPos + 1) y)
  else (st, isPos, none)
termination_by bound - isPos

/-- The count1 quadruple loop of `readHuffman`: while `isPos ≤ 572` and the
bit cursor has not passed `bitPosEnd`, decode a quadruple and write
`v, w, x, y`, breaking as soon as the position reaches 576. -/
def count1Loop (decode : HuffDecode) (tableNum bitPosEnd : Nat)
    (isPos : Nat) (st : HuffState) : HuffState × Nat × Option HuffErr :=
  if h : isPos ≤ 572 ∧ st.m.BitPos ≤ bitPosEnd then
    match decode tableNum st.m with
    | none => (st, isPos, some HuffErr.decodeFailed)
    | some (x, y, v, w, m2) =>
      if 576 ≤ isPos + 1 then (setIs { st with m := m2 } isPos v, isPos + 1, none)
      else if 576 ≤ isPos + 2 then
        (setIs (setIs { st with m := m2 } isPos v) (isPos + 1) w, isPos + 2, none)
      else if 576 ≤ isPos + 3 then
        (setIs (setIs (setIs { st with m := m2 } isPos v) (isPos + 1) w)
          (isPos + 2) x, isPos + 3, none)
      else
        count1Loop decode tableNum bitPosEnd (isPos + 4)
          (setIs (setIs (setIs (setIs { st with m := m2 } isPos v)
            (isPos + 1) w) (isPos + 2) x) (isPos + 3) y)
  else (st, isPos, none)
termination_by 576 - isPos

/-- The rzero zero-fill loop: `for isPos < 576 { Is[isPos] = 0 }`. -/
def zeroFill (isPos : Nat) (st : HuffState) : HuffState :=
  if isPos < 576 then zeroFill (isPos + 1) (setIs st isPos 0) else st
termination_by 576 - isPos

/-- The rollback of `readHuffman`: if the cursor overshot `bitPosEnd + 1`,
undo one quadruple (`isPos -= 4`); the Go code then clamps a negative
`isPos` to 0, which is exactly `Nat` truncated subtraction. -/
def huffmanRollback (bitPosEnd isPos : Nat) (st : HuffState) : Nat :=
  if bitPosEnd + 1 < st.m.BitPos then isPos - 4 else isPos

/-- `st.m.SetPos pos` lifted to the state. -/
def setPosState (pos : Nat) (st : HuffState) : HuffState :=
  { st with m := st.m.SetPos pos }

/-- Tail of `readHuffman` after the loops: rollback, record `Count1`,
zero-fill `Is[count1..576)`, and set the cursor to `bitPosEnd + 1`. -/
def huffmanFinish (bitPosEnd isPos2 : Nat) (st2 : HuffState) : HuffState :=
  setPosState (bitPosEnd + 1)
    (zeroFill (huffmanRollback bitPosEnd isPos2 st2)
      { st2 with count1 := huffmanRollback bitPosEnd isPos2 st2 })

/-- Embedding of `readHuffman` for one granule/channel.  `l` is the long
scalefactor-band index table resolved from the frame header
(`consts.SfBandIndices[lsf][sfreq][long]` in Go). -/
def readHuffman (decode : HuffDecode) (l : List Nat) (si : SideInfoGr)
    (part2Start : Nat) (st0 : HuffState) : HuffState × Option HuffErr :=
  if si.part2_3Length = 0 then (zeroFill 0 st0, none)
  else
    match huffmanRegions l si with
    | Except.error e => (st0, some e)
    | Except.ok (r1, r2) =>
      match bigValuesLoop decode si.tableSelect0 si.tableSelect1 si.tableSelect2
          r1 r2 (si.bigValues * 2) 0 st0 with
      | (st1, _, some e) => (st1, some e)
      | (st1, _, none) =>
        match count1Loop decode (si.count1TableSelect + 32)
            (part2Start + si.part2_3Length - 1) (si.bigValues * 2) st1 with
        | (st2, _, some e) => (st2, some e)
        | (st2, isPos2, none) =>
          (huffmanFinish (part2Start + si.part2_3Length - 1) isPos2 st2, none)

/-! ### C1: region-count overflow is rejected, not clamped

The repository's own test `TestReadHuffmanRegionCountOverflow` builds side
info with `Region0Count = 15`, `Region1Count = 7` (so `j = 24`, past the
last index 22 of the 23-entry table) and asserts that `readHuffman`
returns no error; the specification likewise demands a clamp of
`region2_start` to 576.  The source instead returns the
"invalid index j" error, contradicting both. -/

/-- The side info of `TestReadHuffmanRegionCountOverflow`, restricted to
granule 0 / channel 0. -/
def c1SideInfo : SideInfoGr :=
  { part2_3Length := 100, bigValues := 10, winSwitchFlag := 0, blockType := 0,
    region0Count := 15, region1Count := 7, tableSelect0 := 0, tableSelect1 := 0,
    tableSelect2 := 0, count1TableSelect := 0 }

/-- The state of `TestReadHuffmanRegionCountOverflow`: a 256-byte zero
buffer and a fresh 576-entry `Is` array. -/
def c1State : HuffState :=
  { m := Bits.New (List.replicate 256 0), is := List.replicate 576 0,
    count1 := 0, oob := false }

/-- C1: on the failing input of the repository's own test
(`region0_count = 15`, `region1_count = 7`, long blocks, MPEG1 44.1 kHz, so
`j = 24 ≥ 23 = len(table)`), `readHuffman` returns the "invalid index j"
error instead of clamping `region2_start` to 576 and decoding; the claim
(and the test, and the spec) say this input must decode without error. -/
theorem readHuffman_region_overflow_rejected :
    (readHuffman (fun _ b => some (0, 0, 0, 0, b)) sfBandLongMpeg1_44
      c1SideInfo 0 c1State).2 = some HuffErr.invalidIndexJ := by
  rfl

/-! ### Lemmas about the zero-fill loop and the write instrumentation -/

theorem setIs_m (st : HuffState) (idx : Nat) (v : Int) :
    (setIs st idx v).m = st.m := rfl

theorem setIs_count1 (st : HuffState) (idx : Nat) (v : Int) :
    (setIs st idx v).count1 = st.count1 := rfl

theorem setIs_oob (st : HuffState) (idx : Nat) (v : Int)
    (h : st.oob = false) (hidx : idx < 576) : (setIs st idx v).oob = false := by
  simp only [setIs, h, Bool.false_or]
  exact decide_eq_false (by omega)

theorem getD_set_ne (xs : List Int) (i k : Nat) (v : Int) (h : i ≠ k) :
    (xs.set i v).getD k 0 = xs.getD k 0 := by
  simp [List.getD, List.getElem?_set_ne h]

theorem getD_set_zero (xs : List Int) (i : Nat) :
    (xs.set i (0 : Int)).getD i 0 = 0 := by
  by_cases h : i < xs.length
  · simp [List.getD, List.getElem?_set_self, h]
  · rw [List.set_eq_of_length_le (by omega)]
    rw [List.getD_eq_default _ _ (by omega)]

theorem zeroFill_fields (n : Nat) : ∀ isPos st, 576 - isPos ≤ n →
    (zeroFill isPos st).m = st.m ∧ (zeroFill isPos st).count1 = st.count1 ∧
    (st.oob = false → (zeroFill isPos st).oob = false) := by
  induction n with
  | zero =>
    intro isPos st hle
    rw [zeroFill, if_neg (by omega)]
    exact ⟨rfl, rfl, fun h => h⟩
  | succ n ih =>
    intro isPos st hle
    rw [zeroFill]
    by_cases h : isPos < 576
    · rw [if_pos h]
      obtain ⟨h1, h2, h3⟩ := ih (isPos + 1) (setIs st isPos 0) (by omega)
      exact ⟨h1, h2, fun h0 => h3 (setIs_oob st isPos 0 h0 h)⟩
    · rw [if_neg h]
      exact ⟨rfl, rfl, fun h => h⟩

theorem zeroFill_getD_lt (n : Nat) : ∀ isPos st k, 576 - isPos ≤ n → k < isPos →
    (zeroFill isPos st).is.getD k 0 = st.is.getD k 0 := by
  induction n with
  | zero =>
    intro isPos st k hle hk
    rw [zeroFill, if_neg (by omega)]
  | succ n ih =>
    intro isPos st k hle hk
    rw [zeroFill]
    by_cases h : isPos < 576
    · rw [if_pos h, ih (isPos + 1) _ k (by omega) (by omega)]
      exact getD_set_ne st.is isPos k 0 (by omega)
    · rw [if_neg h]

theorem zeroFill_getD_ge (n : Nat) : ∀ isPos st k, 576 - isPos ≤ n →
    isPos ≤ k → k < 576 → (zeroFill isPos st).is.getD k 0 = 0 := by
  induction n with
  | zero => intro isPos st k hle hk1 hk2; omega
  | succ n ih =>
    intro isPos st k hle hk1 hk2
    rw [zeroFill, if_pos (by omega)]
    by_cases h : k = isPos
    · subst h
      rw [zeroFill_getD_lt (576 - (k + 1)) (k + 1) _ k (by omega) (by omega)]
      exact getD_set_zero st.is k
    · exact ih (isPos + 1) _ k (by omega) (by omega) hk2

/-- `(b.SetPos p).BitPos = p`. -/
theorem bitPos_setPos (b : Bits) (p : Nat) : (b.SetPos p).BitPos = p := by
  simp only [Bits.SetPos, Bits.BitPos]
  omega

/-- C4: whenever `readHuffman` returns without error for a granule/channel
with `part2_3_length > 0` (hypotheses expose the outcomes of the two
Huffman loops): the bit cursor ends exactly at `end+1` where
`end = part2Start + part2_3_length - 1`; `count1` is the loop position
rolled back by one quadruple exactly when the cursor overshot `end+1`
(clamped at 0); every `is` entry from `count1` to 575 is zero (so the four
samples of an undone quadruple are zeroed); and entries below `count1`
keep the values the loops wrote. -/
theorem readHuffman_finish_properties
    (decode : HuffDecode) (l : List Nat) (si : SideInfoGr) (part2Start : Nat)
    (st0 st1 st2 : HuffState) (isPosB isPos2 r1 r2 : Nat)
    (hp : 0 < si.part2_3Length)
    (hreg : huffmanRegions l si = Except.ok (r1, r2))
    (hbig : bigValuesLoop decode si.tableSelect0 si.tableSelect1 si.tableSelect2
      r1 r2 (si.bigValues * 2) 0 st0 = (st1, isPosB, none))
    (hc1 : count1Loop decode (si.count1TableSelect + 32)
      (part2Start + si.part2_3Length - 1) (si.bigValues * 2) st1 = (st2, isPos2, none)) :
    (readHuffman decode l si part2Start st0).2 = none ∧
    (readHuffman decode l si part2Start st0).1.m.BitPos =
      part2Start + si.part2_3Length ∧
    (readHuffman decode l si part2Start st0).1.count1 =
      (if part2Start + si.part2_3Length < st2.m.BitPos then isPos2 - 4 else isPos2) ∧
    (∀ k, (readHuffman decode l si part2Start st0).1.count1 ≤ k → k < 576 →
      (readHuffman decode l si part2Start st0).1.is.getD k 0 = 0) ∧
    (∀ k, k < (readHuffman decode l si part2Start st0).1.count1 →
      (readHuffman decode l si part2Start st0).1.is.getD k 0 = st2.is.getD k 0) := by
  have hE : part2Start + si.part2_3Length - 1 + 1 = part2Start + si.part2_3Length := by
    omega
  have hres : readHuffman decode l si part2Start st0 =
      (huffmanFinish (part2Start + si.part2_3Length - 1) isPos2 st2, none) := by
    rw [readHuffman, if_neg (by omega), hreg]
    dsimp only
    rw [hbig]
    dsimp only
    rw [hc1]
  rw [hres]
  set c := huffmanRollback (part2Start + si.part2_3Length - 1) isPos2 st2 with hc
  have hfin : huffmanFinish (part2Start + si.part2_3Length - 1) isPos2 st2 =
      setPosState (part2Start + si.part2_3Length - 1 + 1)
        (zeroFill c { st2 with count1 := c }) := by
    rw [huffmanFinish]
  have hzf := zeroFill_fields (576 - c) c { st2 with count1 := c } (by omega)
  refine ⟨rfl, ?_, ?_, ?_, ?_⟩
  · rw [hfin, setPosState, bitPos_setPos, hE]
  · show (setPosState _ _).count1 = _
    rw [setPosState]
    show (zeroFill c { st2 with count1 := c }).count1 = _
    rw [hzf.2.1]
    show c = _
    rw [hc, huffmanRollback, hE]
  · intro k hk1 hk2
    have hck : (setPosState (part2Start + si.part2_3Length - 1 + 1)
        (zeroFill c { st2 with count1 := c })).count1 = c := by
      rw [setPosState]
      exact hzf.2.1
    rw [hfin] at hk1 ⊢
    rw [hck] at hk1
    show (zeroFill c { st2 with count1 := c }).is.getD k 0 = 0
    exact zeroFill_getD_ge (576 - c) c _ k (by omega) hk1 hk2
  · intro k hk
    have hck : (setPosState (part2Start + si.part2_3Length - 1 + 1)
        (zeroFill c { st2 with count1 := c })).count1 = c := by
      rw [setPosState]
      exact hzf.2.1
    rw [hfin] at hk ⊢
    rw [hck] at hk
    show (zeroFill c { st2 with count1 := c }).is.getD k 0 = st2.is.getD k 0
    rw [zeroFill_getD_lt (576 - c) c _ k (by omega) hk]

/-- Side info for the C4 witness: one bit of main data, no big values,
short blocks. -/
def c4SideInfo : SideInfoGr :=
  { part2_3Length := 1, bigValues := 0, winSwitchFlag := 1, blockType := 2,
    region0Count := 0, region1Count := 0, tableSelect0 := 0, tableSelect1 := 0,
    tableSelect2 := 0, count1TableSelect := 0 }

/-- State for the C4 witness: the cursor already sits at bit 5 (past
`end + 1 = 1`), and the `Is` array holds nonzero sentinels. -/
def c4State : HuffState :=
  { m := Bits.mk [255] 0 5 false, is := List.replicate 576 9,
    count1 := 0, oob := false }

/-- C4 witness: the finish theorem applied at a concrete input whose
count1 loop overshoots, exercising the rollback clamp, the zero fill and
the cursor realignment. -/
theorem readHuffman_finish_properties_witness :
    0 < c4SideInfo.part2_3Length ∧
    (readHuffman (fun _ _ => none) [] c4SideInfo 0 c4State).2 = none ∧
    (readHuffman (fun _ _ => none) [] c4SideInfo 0 c4State).1.m.BitPos = 1 ∧
    (readHuffman (fun _ _ => none) [] c4SideInfo 0 c4State).1.count1 = 0 ∧
    (∀ k, (readHuffman (fun _ _ => none) [] c4SideInfo 0 c4State).1.count1 ≤ k →
      k < 576 →
      (readHuffman (fun _ _ => none) [] c4SideInfo 0 c4State).1.is.getD k 0 = 0) := by
  have hbig : bigValuesLoop (fun _ _ => none) c4SideInfo.tableSelect0
      c4SideInfo.tableSelect1 c4SideInfo.tableSelect2 36 576
      (c4SideInfo.bigValues * 2) 0 c4State = (c4State, 0, none) := by
    rw [bigValuesLoop]
    norm_num [c4SideInfo]
  have hc1 : count1Loop (fun _ _ => none) (c4SideInfo.count1TableSelect + 32)
      (0 + c4SideInfo.part2_3Length - 1) (c4SideInfo.bigValues * 2) c4State =
      (c4State, 0, none) := by
    rw [count1Loop]
    norm_num [c4SideInfo, c4State, Bits.BitPos]
  have h := readHuffman_finish_properties (fun _ _ => none) [] c4SideInfo 0
    c4State c4State c4State 0 0 36 576 (by norm_num [c4SideInfo])
    (by rfl) hbig hc1
  refine ⟨by norm_num [c4SideInfo], h.1, ?_, ?_, h.2.2.2.1⟩
  · rw [h.2.1]
    norm_num [c4SideInfo]
  · rw [h.2.2.1]
    norm_num [c4SideInfo, c4State, Bits.BitPos]

/-! ### C6: `readHuffman` never writes outside `Is[0..575]` -/

theorem bigValuesLoop_oob (decode : HuffDecode) (t0 t1 t2 r1 r2 bound : Nat) :
    ∀ n isPos st, bound - isPos ≤ n → isPos % 2 = 0 → st.oob = false →
      (bigValuesLoop decode t0 t1 t2 r1 r2 bound isPos st).1.oob = false := by
  intro n
  induction n with
  | zero =>
    intro isPos st hle hev hoob
    rw [bigValuesLoop, dif_neg (by omega)]
    exact hoob
  | succ n ih =>
    intro isPos st hle hev hoob
    rw [bigValuesLoop]
    by_cases h : isPos < bound
    · rw [dif_pos h]
      by_cases h576 : 576 ≤ isPos
      · rw [if_pos h576]
        exact hoob
      · rw [if_neg h576]
        cases hdec : decode (if isPos < r1 then t0 else if isPos < r2 then t1 else t2) st.m with
        | none => exact hoob
        | some val =>
          obtain ⟨x, y, v, w, m2⟩ := val
          refine ih (isPos + 2) _ (by omega) (by omega) ?_
          refine setIs_oob _ _ _ (setIs_oob _ _ _ ?_ (by omega)) (by omega)
          simpa using hoob
    · rw [dif_neg h]
      exact hoob

theorem count1Loop_oob (decode : HuffDecode) (tableNum bitPosEnd : Nat) :
    ∀ n isPos st, 576 - isPos ≤ n → st.oob = false →
      (count1Loop decode tableNum bitPosEnd isPos st).1.oob = false := by
  intro n
  induction n with
  | zero =>
    intro isPos st hle hoob
    rw [count1Loop, dif_neg (by omega)]
    exact hoob
  | succ n ih =>
    intro isPos st hle hoob
    rw [count1Loop]
    by_cases h : isPos ≤ 572 ∧ st.m.BitPos ≤ bitPosEnd
    · rw [dif_pos h]
      cases hdec : decode tableNum st.m with
      | none => exact hoob
      | some val =>
        obtain ⟨x, y, v, w, m2⟩ := val
        dsimp only
        have hm : (HuffState.mk m2 st.is st.count1 st.oob).oob = false := hoob
        by_cases h1 : 576 ≤ isPos + 1
        · rw [if_pos h1]
          exact setIs_oob _ _ _ hm (by omega)
        · rw [if_neg h1]
          by_cases h2 : 576 ≤ isPos + 2
          · rw [if_pos h2]
            exact setIs_oob _ _ _ (setIs_oob _ _ _ hm (by omega)) (by omega)
          · rw [if_neg h2]
            by_cases h3 : 576 ≤ isPos + 3
            · rw [if_pos h3]
              exact setIs_oob _ _ _
                (setIs_oob _ _ _ (setIs_oob _ _ _ hm (by omega)) (by omega)) (by omega)
            · rw [if_neg h3]
              refine ih (isPos + 4) _ (by omega) ?_
              refine setIs_oob _ _ _ (setIs_oob _ _ _
                (setIs_oob _ _ _ (setIs_oob _ _ _ hm (by omega)) (by omega))
                (by omega)) (by omega)
    · rw [dif_neg h]
      exact hoob

/-- C6: for every side info the parser can produce (`big_values` is a
9-bit field, at most 511), every decode oracle, every band table and every
clean initial state, `readHuffman` never writes an `Is` index outside
0..575: the instrumentation flag stays `false` on every path (the pair
loop errors out at position 576 before writing, and the quadruple loop
breaks before the position exceeds 575). -/
theorem readHuffman_writes_in_bounds (decode : HuffDecode) (l : List Nat)
    (si : SideInfoGr) (part2Start : Nat) (st0 : HuffState)
    (hbv : si.bigValues ≤ 511) (h0 : st0.oob = false) :
    (readHuffman decode l si part2Start st0).1.oob = false := by
  rw [readHuffman]
  by_cases hp : si.part2_3Length = 0
  · rw [if_pos hp]
    exact (zeroFill_fields 576 0 st0 (by omega)).2.2 h0
  · rw [if_neg hp]
    cases hreg : huffmanRegions l si with
    | error e => exact h0
    | ok rr =>
      obtain ⟨r1, r2⟩ := rr
      dsimp only
      rcases hbig : bigValuesLoop decode si.tableSelect0 si.tableSelect1
          si.tableSelect2 r1 r2 (si.bigValues * 2) 0 st0 with ⟨st1, isPosB, e1⟩
      have hst1 : st1.oob = false := by
        have := bigValuesLoop_oob decode si.tableSelect0 si.tableSelect1
          si.tableSelect2 r1 r2 (si.bigValues * 2) (si.bigValues * 2) 0 st0
          (by omega) (by omega) h0
        rw [hbig] at this
        exact this
      cases e1 with
      | some e => exact hst1
      | none =>
        dsimp only
        rcases hc1 : count1Loop decode (si.count1TableSelect + 32)
            (part2Start + si.part2_3Length - 1) (si.bigValues * 2) st1 with
          ⟨st2, isPos2, e2⟩
        have hst2 : st2.oob = false := by
          have := count1Loop_oob decode (si.count1TableSelect + 32)
            (part2Start + si.part2_3Length - 1) 576 (si.bigValues * 2) st1
            (by omega) hst1
          rw [hc1] at this
          exact this
        cases e2 with
        | some e => exact hst2
        | none =>
          show (huffmanFinish (part2Start + si.part2_3Length - 1) isPos2 st2).oob = false
          rw [huffmanFinish, setPosState]
          exact (zeroFill_fields 576 _ _ (by omega)).2.2 hst2

/-- C6 witness: the in-bounds theorem applied at a concrete input with a
decode oracle that supplies values without consuming bits. -/
theorem readHuffman_writes_in_bounds_witness :
    c1SideInfo.bigValues ≤ 511 ∧ c1State.oob = false ∧
    (readHuffman (fun _ b => some (1, 1, 1, 1, b)) sfBandLongMpeg1_44
      c1SideInfo 3 c1State).1.oob = false := by
  exact ⟨by norm_num [c1SideInfo], rfl,
    readHuffman_writes_in_bounds (fun _ b => some (1, 1, 1, 1, b))
      sfBandLongMpeg1_44 c1SideInfo 3 c1State (by norm_num [c1SideInfo]) rfl⟩

/-! ## `sideinfo.Read` (`internal/sideinfo`)

The parser consults the frame header only through accessors of the missing
`frameheader` package; those accessors are modelled from the spec as a
record of their results, with `granules` (2 for MPEG1, 1 for MPEG2) and
`numberOfChannels` (1 for mono, else 2) derived as the spec prescribes.
The parsed `SideInfo` struct's `[2][2]`-indexed fields are modelled as
functions `Nat → Nat → Nat` starting from the Go zero value and updated
pointwise, mirroring each `s.Bits(n)` read in source order.  `Read` never
checks the bit reader's error, so neither does the embedding. -/

/-- Modelled from the spec: the results of the `frameheader` accessors used
by `sideinfo.Read`.  `frameSize` is `FrameSize()` (`none` models its error
return), `lsf` is `LowSamplingFrequency()` (0 for MPEG1, 1 for MPEG2), and
`mode` is `Mode()` where 3 is `consts.ModeSingleChannel`. -/
structure FrameHeaderM where
  frameSize : Option Nat
  sideInfoSize : Nat
  lsf : Nat
  mode : Nat

/-- Modelled from the spec: `granules` is 2 for MPEG1 and 1 for MPEG2. -/
def FrameHeaderM.granules (h : FrameHeaderM) : Nat :=
  if h.lsf = 0 then 2 else 1

/-- Modelled from the spec: one channel for mono, two otherwise. -/
def FrameHeaderM.numberOfChannels (h : FrameHeaderM) : Nat :=
  if h.mode = 3 then 1 else 2

/-- The fields of the Go `SideInfo` struct; `[2][2]`-indexed fields become
functions of `(gr, ch)`, `[2][2][3]`-indexed ones of `(gr, ch, region)`. -/
structure SideInfoM where
  mainDataBegin : Nat
  privateBits : Nat
  scfsi : Nat → Nat → Nat
  part2_3Length : Nat → Nat → Nat
  bigValues : Nat → Nat → Nat
  globalGain : Nat → Nat → Nat
  scalefacCompress : Nat → Nat → Nat
  winSwitchFlag : Nat → Nat → Nat
  blockType : Nat → Nat → Nat
  mixedBlockFlag : Nat → Nat → Nat
  tableSelect : Nat → Nat → Nat → Nat
  subblockGain : Nat → Nat → Nat → Nat
  region0Count : Nat → Nat → Nat
  region1Count : Nat → Nat → Nat
  preflag : Nat → Nat → Nat
  scalefacScale : Nat → Nat → Nat
  count1TableSelect : Nat → Nat → Nat

/-- The Go zero value `&SideInfo{}`. -/
def siZero : SideInfoM :=
  { mainDataBegin := 0, privateBits := 0, scfsi := fun _ _ => 0,
    part2_3Length := fun _ _ => 0, bigValues := fun _ _ => 0,
    globalGain := fun _ _ => 0, scalefacCompress := fun _ _ => 0,
    winSwitchFlag := fun _ _ => 0, blockType := fun _ _ => 0,
    mixedBlockFlag := fun _ _ => 0, tableSelect := fun _ _ _ => 0,
    subblockGain := fun _ _ _ => 0, region0Count := fun _ _ => 0,
    region1Count := fun _ _ => 0, preflag := fun _ _ => 0,
    scalefacScale := fun _ _ => 0, count1TableSelect := fun _ _ => 0 }

/-- `f[gr][ch] = v` on a two-index field. -/
def upd2 (f : Nat → Nat → Nat) (gr ch v : Nat) : Nat → Nat → Nat :=
  fun a b => if a = gr ∧ b = ch then v else f a b

/-- `f[gr][ch][r] = v` on a three-index field. -/
def upd3 (f : Nat → Nat → Nat → Nat) (gr ch r v : Nat) : Nat → Nat → Nat → Nat :=
  fun a b c => if a = gr ∧ b = ch ∧ c = r then v else f a b c

/-- One iteration of the scfsi loop: `si.Scfsi[ch][scfsiBand] = s.Bits(1)`. -/
def scfsiBand (x : Bits × SideInfoM) (ch band : Nat) : Bits × SideInfoM :=
  ((x.1.BitsN 1).2, { x.2 with scfsi := upd2 x.2.scfsi ch band (x.1.BitsN 1).1 })

/-- The MPEG1 scfsi loop of `sideinfo.Read`. -/
def scfsiRead (nch : Nat) (x : Bits × SideInfoM) : Bits × SideInfoM :=
  (List.range nch).foldl (fun acc ch =>
    (List.range 4).foldl (fun acc2 band => scfsiBand acc2 ch band) acc) x


/-- The branch of the per-granule/channel body taken after `WinSwitchFlag`
has been stored; `wsw` is the value that was read.  With `wsw = 1`: 2-bit
block type, 1-bit mixed-block flag, two 5-bit table selects, three 3-bit
subblock gains, then the implicit `Region0Count` (8 iff `BlockType = 2`
and `MixedBlockFlag = 0`, else 7) and `Region1Count = 20 - Region0Count`.
Otherwise: three 5-bit table selects, 4-bit `Region0Count`, 3-bit
`Region1Count`, implicit `BlockType = 0`, and for MPEG2 additionally
`MixedBlockFlag[0][ch] = 0`. -/
def siCellBranch (mpeg1 : Bool) (wsw gr ch : Nat) (s : Bits) (si : SideInfoM) :
    Bits × SideInfoM :=
  if wsw = 1 then
    let q1 := s.BitsN 2
    let t1 := { si with blockType := upd2 si.blockType gr ch q1.1 }
    let q2 := q1.2.BitsN 1
    let t2 := { t1 with mixedBlockFlag := upd2 t1.mixedBlockFlag gr ch q2.1 }
    let q3 := q2.2.BitsN 5
    let t3 := { t2 with tableSelect := upd3 t2.tableSelect gr ch 0 q3.1 }
    let q4 := q3.2.BitsN 5
    let t4 := { t3 with tableSelect := upd3 t3.tableSelect gr ch 1 q4.1 }
    let q5 := q4.2.BitsN 3
    let t5 := { t4 with subblockGain := upd3 t4.subblockGain gr ch 0 q5.1 }
    let q6 := q5.2.BitsN 3
    let t6 := { t5 with subblockGain := upd3 t5.subblockGain gr ch 1 q6.1 }
    let q7 := q6.2.BitsN 3
    let t7 := { t6 with subblockGain := upd3 t6.subblockGain gr ch 2 q7.1 }
    let r0 := if q1.1 = 2 ∧ q2.1 = 0 then 8 else 7
    let t8 := { t7 with region0Count := upd2 t7.region0Count gr ch r0 }
    (q7.2, { t8 with region1Count := upd2 t8.region1Count gr ch (20 - r0) })
  else
    let q1 := s.BitsN 5
    let t1 := { si with tableSelect := upd3 si.tableSelect gr ch 0 q1.1 }
    let q2 := q1.2.BitsN 5
    let t2 := { t1 with tableSelect := upd3 t1.tableSelect gr ch 1 q2.1 }
    let q3 := q2.2.BitsN 5
    let t3 := { t2 with tableSelect := upd3 t2.tableSelect gr ch 2 q3.1 }
    let q4 := q3.2.BitsN 4
    let t4 := { t3 with region0Count := upd2 t3.region0Count gr ch q4.1 }
    let q5 := q4.2.BitsN 3
    let t5 := { t4 with region1Count := upd2 t4.region1Count gr ch q5.1 }
    let t6 := { t5 with blockType := upd2 t5.blockType gr ch 0 }
    (q5.2, if mpeg1 then t6
      else { t6 with mixedBlockFlag := upd2 t6.mixedBlockFlag 0 ch 0 })

/-- The trailing reads of the per-granule/channel body: 1-bit `Preflag`
(MPEG1 only), 1-bit `ScalefacScale`, 1-bit `Count1TableSelect`. -/
def siCellTail (mpeg1 : Bool) (gr ch : Nat) (x : Bits × SideInfoM) :
    Bits × SideInfoM :=
  let y := if mpeg1 then
      (((x.1.BitsN 1).2 : Bits),
        { x.2 with preflag := upd2 x.2.preflag gr ch (x.1.BitsN 1).1 })
    else x
  let r1 := y.1.BitsN 1
  let z := { y.2 with scalefacScale := upd2 y.2.scalefacScale gr ch r1.1 }
  let r2 := r1.2.BitsN 1
  (r2.2, { z with count1TableSelect := upd2 z.count1TableSelect gr ch r2.1 })

/-- One iteration of the granule/channel loop of `sideinfo.Read`: the five
leading fixed-width reads, the window-switching branch, and the tail.
`srb` is `sideInfoBitsToRead[3]`, the width of `ScalefacCompress`. -/
def siCell (mpeg1 : Bool) (srb gr ch : Nat) (s : Bits) (si : SideInfoM) :
    Bits × SideInfoM :=
  let p1 := s.BitsN 12
  let si1 := { si with part2_3Length := upd2 si.part2_3Length gr ch p1.1 }
  let p2 := p1.2.BitsN 9
  let si2 := { si1 with bigValues := upd2 si1.bigValues gr ch p2.1 }
  let p3 := p2.2.BitsN 8
  let si3 := { si2 with globalGain := upd2 si2.globalGain gr ch p3.1 }
  let p4 := p3.2.BitsN srb
  let si4 := { si3 with scalefacCompress := upd2 si3.scalefacCompress gr ch p4.1 }
  let p5 := p4.2.BitsN 1
  let si5 := { si4 with winSwitchFlag := upd2 si4.winSwitchFlag gr ch p5.1 }
  siCellTail mpeg1 gr ch (siCellBranch mpeg1 p5.1 gr ch p5.2 si5)

/-- The nested granule/channel loop of `sideinfo.Read`. -/
def siCellFold (mpeg1 : Bool) (srb nch granules : Nat) (x : Bits × SideInfoM) :
    Bits × SideInfoM :=
  (List.range granules).foldl (fun acc gr =>
    (List.range nch).foldl (fun acc2 ch => siCell mpeg1 srb gr ch acc2.1 acc2.2) acc) x

inductive SiErr where
  | frameSizeFailed : SiErr
  | frameSizeTooBig : SiErr
  | shortRead : SiErr
deriving DecidableEq, Repr

/-- Embedding of `sideinfo.Read`.  The first component of the result is
what remains of the source after the call (`ReadFull` consumes up to
`sideInfoSize` bytes; on the early errors nothing has been consumed).
The parser reads `MainDataBegin` (9 bits MPEG1 / 8 bits MPEG2), the
private bits (5/3 MPEG1, 1/2 MPEG2, by channel mode), the MPEG1 scfsi
bits, and then the granule/channel cells; it never inspects the bit
reader's error flag. -/
def sideInfoRead (src : List Nat) (h : FrameHeaderM) :
    List Nat × Except SiErr SideInfoM :=
  match h.frameSize with
  | none => (src, Except.error SiErr.frameSizeFailed)
  | some fs =>
    if 2000 < fs then (src, Except.error SiErr.frameSizeTooBig)
    else if src.length < h.sideInfoSize then
      (src.drop src.length, Except.error SiErr.shortRead)
    else
      let s0 := Bits.New (src.take h.sideInfoSize)
      let p1 := s0.BitsN (if h.lsf = 0 then 9 else 8)
      let si1 := { siZero with mainDataBegin := p1.1 }
      let p2 := p1.2.BitsN
        (if h.mode = 3 then (if h.lsf = 0 then 5 else 1)
         else (if h.lsf = 0 then 3 else 2))
      let si2 := { si1 with privateBits := p2.1 }
      let x3 := if h.lsf = 0 then scfsiRead h.numberOfChannels (p2.2, si2)
        else (p2.2, si2)
      (src.drop h.sideInfoSize,
        Except.ok (siCellFold (decide (h.lsf = 0)) (if h.lsf = 0 then 4 else 9)
          h.numberOfChannels h.granules x3).2)

/-- C8: for every frame header whose computed frame size exceeds 2000,
`sideinfo.Read` fails with the out-of-range error before consuming any
byte of the source (the returned remaining source is the input,
untouched). -/
theorem sideInfoRead_frameSize_guard (src : List Nat) (h : FrameHeaderM)
    (n : Nat) (hfs : h.frameSize = some n) (hn : 2000 < n) :
    sideInfoRead src h = (src, Except.error SiErr.frameSizeTooBig) := by
  simp only [sideInfoRead, hfs]
  rw [if_pos hn]

/-- C8 witness: a header reporting frame size 2001 with a 3-byte source. -/
theorem sideInfoRead_frameSize_guard_witness :
    (FrameHeaderM.mk (some 2001) 32 0 0).frameSize = some 2001 ∧ 2000 < 2001 ∧
    sideInfoRead [1, 2, 3] (FrameHeaderM.mk (some 2001) 32 0 0) =
      ([1, 2, 3], Except.error SiErr.frameSizeTooBig) :=
  ⟨rfl, by norm_num,
    sideInfoRead_frameSize_guard [1, 2, 3] (FrameHeaderM.mk (some 2001) 32 0 0)
      2001 rfl (by norm_num)⟩

/-! ### C9: the implicit region counts under window switching -/

/-- The claimed relationship at one granule/channel: under window
switching, `Region0Count` is 8 for non-mixed short blocks and 7 otherwise,
and `Region1Count` is its complement to 20. -/
def siPropAt (si : SideInfoM) (a b : Nat) : Prop :=
  si.winSwitchFlag a b = 1 →
    si.region0Count a b =
      (if si.blockType a b = 2 ∧ si.mixedBlockFlag a b = 0 then 8 else 7) ∧
    si.region1Count a b = 20 - si.region0Count a b

/-- `siCell` uncurried over the loop accumulator. -/
def siCellP (mpeg1 : Bool) (srb gr ch : Nat) (x : Bits × SideInfoM) :
    Bits × SideInfoM :=
  siCell mpeg1 srb gr ch x.1 x.2

theorem siCellTail_fields (mpeg1 : Bool) (gr ch : Nat) (x : Bits × SideInfoM) :
    (siCellTail mpeg1 gr ch x).2.winSwitchFlag = x.2.winSwitchFlag ∧
    (siCellTail mpeg1 gr ch x).2.blockType = x.2.blockType ∧
    (siCellTail mpeg1 gr ch x).2.mixedBlockFlag = x.2.mixedBlockFlag ∧
    (siCellTail mpeg1 gr ch x).2.region0Count = x.2.region0Count ∧
    (siCellTail mpeg1 gr ch x).2.region1Count = x.2.region1Count := by
  cases mpeg1 <;> simp [siCellTail]

theorem siCellBranch_winSwitch (mpeg1 : Bool) (wsw gr ch : Nat) (s : Bits)
    (si : SideInfoM) :
    (siCellBranch mpeg1 wsw gr ch s si).2.winSwitchFlag = si.winSwitchFlag := by
  by_cases h : wsw = 1 <;> by_cases hm : mpeg1 <;>
    simp [siCellBranch, h, hm]

theorem siCellBranch_own (mpeg1 : Bool) (wsw gr ch : Nat) (s : Bits)
    (si : SideInfoM) (h : wsw = 1) :
    (siCellBranch mpeg1 wsw gr ch s si).2.region0Count gr ch =
      (if (siCellBranch mpeg1 wsw gr ch s si).2.blockType gr ch = 2 ∧
          (siCellBranch mpeg1 wsw gr ch s si).2.mixedBlockFlag gr ch = 0
        then 8 else 7) ∧
    (siCellBranch mpeg1 wsw gr ch s si).2.region1Count gr ch =
      20 - (siCellBranch mpeg1 wsw gr ch s si).2.region0Count gr ch := by
  subst h
  simp [siCellBranch, upd2, upd3]

theorem siCellBranch_keep (mpeg1 : Bool) (wsw gr ch a b : Nat) (s : Bits)
    (si : SideInfoM) (hne : ¬(a = gr ∧ b = ch))
    (hne0 : mpeg1 = false → ¬(a = 0 ∧ b = ch)) :
    (siCellBranch mpeg1 wsw gr ch s si).2.winSwitchFlag a b = si.winSwitchFlag a b ∧
    (siCellBranch mpeg1 wsw gr ch s si).2.blockType a b = si.blockType a b ∧
    (siCellBranch mpeg1 wsw gr ch s si).2.mixedBlockFlag a b = si.mixedBlockFlag a b ∧
    (siCellBranch mpeg1 wsw gr ch s si).2.region0Count a b = si.region0Count a b ∧
    (siCellBranch mpeg1 wsw gr ch s si).2.region1Count a b = si.region1Count a b := by
  by_cases h : wsw = 1
  · simp [siCellBranch, h, upd2, hne]
  · by_cases hm : mpeg1
    · simp [siCellBranch, h, hm, upd2, hne]
    · have hne0x := hne0 (by simp [hm])
      simp [siCellBranch, h, hm, upd2, hne, hne0x]

theorem siCellP_own (mpeg1 : Bool) (srb gr ch : Nat) (x : Bits × SideInfoM) :
    siPropAt (siCellP mpeg1 srb gr ch x).2 gr ch := by
  intro hw
  simp only [siCellP, siCell] at hw ⊢
  simp only [siCellTail_fields, siCellBranch_winSwitch] at hw
  simp [upd2] at hw
  simp only [siCellTail_fields]
  exact siCellBranch_own _ _ _ _ _ _ hw

theorem siCellP_fields (mpeg1 : Bool) (srb gr ch a b : Nat) (x : Bits × SideInfoM)
    (hne : ¬(a = gr ∧ b = ch)) (hne0 : mpeg1 = false → ¬(a = 0 ∧ b = ch)) :
    (siCellP mpeg1 srb gr ch x).2.winSwitchFlag a b = x.2.winSwitchFlag a b ∧
    (siCellP mpeg1 srb gr ch x).2.blockType a b = x.2.blockType a b ∧
    (siCellP mpeg1 srb gr ch x).2.mixedBlockFlag a b = x.2.mixedBlockFlag a b ∧
    (siCellP mpeg1 srb gr ch x).2.region0Count a b = x.2.region0Count a b ∧
    (siCellP mpeg1 srb gr ch x).2.region1Count a b = x.2.region1Count a b := by
  simp only [siCellP, siCell, siCellTail_fields]
  refine ⟨?_, ?_, ?_, ?_, ?_⟩
  · rw [(siCellBranch_keep _ _ _ _ _ _ _ _ hne hne0).1]
    simp [upd2, hne]
  · rw [(siCellBranch_keep _ _ _ _ _ _ _ _ hne hne0).2.1]
  · rw [(siCellBranch_keep _ _ _ _ _ _ _ _ hne hne0).2.2.1]
  · rw [(siCellBranch_keep _ _ _ _ _ _ _ _ hne hne0).2.2.2.1]
  · rw [(siCellBranch_keep _ _ _ _ _ _ _ _ hne hne0).2.2.2.2]

theorem siCellP_keep (mpeg1 : Bool) (srb gr ch a b : Nat) (x : Bits × SideInfoM)
    (hne : ¬(a = gr ∧ b = ch)) (hne0 : mpeg1 = false → ¬(a = 0 ∧ b = ch))
    (hp : siPropAt x.2 a b) : siPropAt (siCellP mpeg1 srb gr ch x).2 a b := by
  obtain ⟨eW, eB, eM, eR0, eR1⟩ := siCellP_fields mpeg1 srb gr ch a b x hne hne0
  intro hw
  rw [eW] at hw
  simp only [eR0, eB, eM, eR1]
  exact hp hw

theorem siCellFold_unfold_11 (mpeg1 : Bool) (srb : Nat) (x : Bits × SideInfoM) :
    siCellFold mpeg1 srb 1 1 x = siCellP mpeg1 srb 0 0 x := by
  simp only [siCellFold, siCellP, show List.range 1 = [0] from rfl,
    List.foldl_cons, List.foldl_nil]

theorem siCellFold_unfold_21 (mpeg1 : Bool) (srb : Nat) (x : Bits × SideInfoM) :
    siCellFold mpeg1 srb 2 1 x = siCellP mpeg1 srb 0 1 (siCellP mpeg1 srb 0 0 x) := by
  simp only [siCellFold, siCellP, show List.range 1 = [0] from rfl,
    show List.range 2 = [0, 1] from rfl, List.foldl_cons, List.foldl_nil]

theorem siCellFold_unfold_12 (mpeg1 : Bool) (srb : Nat) (x : Bits × SideInfoM) :
    siCellFold mpeg1 srb 1 2 x = siCellP mpeg1 srb 1 0 (siCellP mpeg1 srb 0 0 x) := by
  simp only [siCellFold, siCellP, show List.range 1 = [0] from rfl,
    show List.range 2 = [0, 1] from rfl, List.foldl_cons, List.foldl_nil]

theorem siCellFold_unfold_22 (mpeg1 : Bool) (srb : Nat) (x : Bits × SideInfoM) :
    siCellFold mpeg1 srb 2 2 x =
      siCellP mpeg1 srb 1 1 (siCellP mpeg1 srb 1 0
        (siCellP mpeg1 srb 0 1 (siCellP mpeg1 srb 0 0 x))) := by
  simp only [siCellFold, siCellP, show List.range 2 = [0, 1] from rfl,
    List.foldl_cons, List.foldl_nil]

theorem siCellFold_prop (mpeg1 : Bool) (srb nch g gr ch : Nat)
    (x : Bits × SideInfoM)
    (hg2 : g ≤ 2) (hn1 : 1 ≤ nch) (hn2 : nch ≤ 2)
    (hmpeg : mpeg1 = false → g = 1)
    (hgr : gr < g) (hch : ch < nch) :
    siPropAt (siCellFold mpeg1 srb nch g x).2 gr ch := by
  have hg1 : 1 ≤ g := by omega
  interval_cases g
  · interval_cases gr
    interval_cases nch
    · interval_cases ch
      rw [siCellFold_unfold_11]
      exact siCellP_own mpeg1 srb 0 0 x
    · rw [siCellFold_unfold_21]
      interval_cases ch
      · exact siCellP_keep mpeg1 srb 0 1 0 0 _ (by omega)
          (fun _ => by omega) (siCellP_own mpeg1 srb 0 0 x)
      · exact siCellP_own mpeg1 srb 0 1 _
  · have hm : mpeg1 = true := by
      cases hmb : mpeg1
      · exact absurd (hmpeg hmb) (by omega)
      · rfl
    have hmf : ∀ p : Prop, mpeg1 = false → p := by
      intro p hf
      rw [hm] at hf
      exact absurd hf (by simp)
    interval_cases nch
    · rw [siCellFold_unfold_12]
      interval_cases ch
      interval_cases gr
      · exact siCellP_keep mpeg1 srb 1 0 0 0 _ (by omega) (hmf _)
          (siCellP_own mpeg1 srb 0 0 x)
      · exact siCellP_own mpeg1 srb 1 0 _
    · rw [siCellFold_unfold_22]
      interval_cases gr <;> interval_cases ch
      · exact siCellP_keep mpeg1 srb 1 1 0 0 _ (by omega) (hmf _)
          (siCellP_keep mpeg1 srb 1 0 0 0 _ (by omega) (hmf _)
            (siCellP_keep mpeg1 srb 0 1 0 0 _ (by omega) (hmf _)
              (siCellP_own mpeg1 srb 0 0 x)))
      · exact siCellP_keep mpeg1 srb 1 1 0 1 _ (by omega) (hmf _)
          (siCellP_keep mpeg1 srb 1 0 0 1 _ (by omega) (hmf _)
            (siCellP_own mpeg1 srb 0 1 _))
      · exact siCellP_keep mpeg1 srb 1 1 1 0 _ (by omega) (hmf _)
          (siCellP_own mpeg1 srb 1 0 _)
      · exact siCellP_own mpeg1 srb 1 1 _

/-- C9: whenever `sideinfo.Read` succeeds, every parsed granule/channel
with `window_switching_flag = 1` has `region0_count = 8` if
`block_type = 2` and `mixed_block_flag = 0` and `region0_count = 7`
otherwise, with `region1_count = 20 - region0_count`; the values are
forced by the parser (for every source buffer), not read from the
bitstream. -/
theorem sideInfoRead_implicit_region_counts (src : List Nat) (h : FrameHeaderM)
    (si : SideInfoM) (rest : List Nat) (gr ch : Nat)
    (hok : sideInfoRead src h = (rest, Except.ok si))
    (hgr : gr < h.granules) (hch : ch < h.numberOfChannels)
    (hw : si.winSwitchFlag gr ch = 1) :
    si.region0Count gr ch =
      (if si.blockType gr ch = 2 ∧ si.mixedBlockFlag gr ch = 0 then 8 else 7) ∧
    si.region1Count gr ch = 20 - si.region0Count gr ch := by
  rcases hfs : h.frameSize with _ | fs
  · simp only [sideInfoRead, hfs] at hok
    simp at hok
  · simp only [sideInfoRead, hfs] at hok
    by_cases hbig : 2000 < fs
    · rw [if_pos hbig] at hok
      simp at hok
    · rw [if_neg hbig] at hok
      by_cases hshort : src.length < h.sideInfoSize
      · rw [if_pos hshort] at hok
        simp at hok
      · rw [if_neg hshort] at hok
        simp only [Prod.mk.injEq, Except.ok.injEq] at hok
        obtain ⟨h1, h2⟩ := hok
        rw [← h2] at hw ⊢
        refine siCellFold_prop (decide (h.lsf = 0)) _ h.numberOfChannels
          h.granules gr ch _ ?_ ?_ ?_ ?_ hgr hch hw
        · rw [FrameHeaderM.granules]
          split <;> omega
        · rw [FrameHeaderM.numberOfChannels]
          split <;> omega
        · rw [FrameHeaderM.numberOfChannels]
          split <;> omega
        · intro hf
          have hlf : ¬h.lsf = 0 := of_decide_eq_false hf
          rw [FrameHeaderM.granules, if_neg hlf]

/-- Header for the C9 witness: MPEG2 mono, 7 bytes of side info. -/
def c9hdr : FrameHeaderM :=
  { frameSize := some 100, sideInfoSize := 7, lsf := 1, mode := 3 }

/-- Source for the C9 witness: all zero except byte 5, whose lowest bit is
the `window_switching_flag` of granule 0 / channel 0 (bit 47 = 8 + 1 +
12 + 9 + 8 + 9). -/
def c9src : List Nat := [0, 0, 0, 0, 0, 1, 0]

/-- The side info the parser produces on the C9 witness input. -/
def c9parsed : SideInfoM :=
  match (sideInfoRead c9src c9hdr).2 with
  | Except.ok si => si
  | Except.error _ => siZero

/-- C9 witness: on the concrete MPEG2 mono input the parse succeeds,
granule 0 / channel 0 has `window_switching_flag = 1`, and the implicit
region counts follow (here `block_type = 0`, so `region0_count = 7` and
`region1_count = 13`). -/
theorem sideInfoRead_implicit_region_counts_witness :
    sideInfoRead c9src c9hdr =
      ((sideInfoRead c9src c9hdr).1, Except.ok c9parsed) ∧
    0 < c9hdr.granules ∧ 0 < c9hdr.numberOfChannels ∧
    c9parsed.winSwitchFlag 0 0 = 1 ∧
    c9parsed.region0Count 0 0 =
      (if c9parsed.blockType 0 0 = 2 ∧ c9parsed.mixedBlockFlag 0 0 = 0
        then 8 else 7) ∧
    c9parsed.region1Count 0 0 = 20 - c9parsed.region0Count 0 0 := by
  have hok : sideInfoRead c9src c9hdr =
      ((sideInfoRead c9src c9hdr).1, Except.ok c9parsed) := by rfl
  have hwv : c9parsed.winSwitchFlag 0 0 = 1 := by decide
  have h := sideInfoRead_implicit_region_counts c9src c9hdr c9parsed
    (sideInfoRead c9src c9hdr).1 0 0 hok (by decide) (by decide) hwv
  exact ⟨hok, by decide, by decide, hwv, h.1, h.2⟩

/-! ## `Decoder.Seek` (`decode.go`)

The decoder state keeps the fields `Seek` touches: the buffered PCM bytes,
the PCM byte position, the total length (`invalidLength = -1` when the
source is not seekable), the frame-start offsets, the per-frame PCM byte
count, the underlying source position, and the current frame (modelled as
`Option Unit`, since `Seek` only ever sets it to `nil` or a decoded
frame).  `readFrame` — the whole frame-decode pipeline — enters as an
oracle from source positions to the advanced source position and the PCM
bytes appended to `d.buf`; `Seek`'s own control flow is embedded from the
source.  All Go `int64` arithmetic on this path has nonnegative operands,
where Lean's `Int` division and remainder agree with Go's.  Go's slicing
`d.buf[X:]` is `List.drop`, and the in-bounds frame index accesses are
`List.get?` with an explicit error for the index Go would panic on. -/

structure DecoderM where
  buf : List Nat
  pos : Int
  length : Int
  frameStarts : List Int
  bytesPerFrame : Int
  sourcePos : Int
  frame : Option Unit
deriving DecidableEq, Repr

/-- The `readFrame` oracle: from a source position, the new source
position and the decoded PCM bytes, or a failure. -/
abbrev ReadFrameOracle := Int → Option (Int × List Nat)

/-- Embedding of `d.readFrame()`: on success the decoded PCM is appended
to `d.buf` and the source has advanced. -/
def readFrameM (rf : ReadFrameOracle) (d : DecoderM) : Option DecoderM :=
  match rf d.sourcePos with
  | none => none
  | some (sp, pcm) =>
    some { d with sourcePos := sp, buf := d.buf ++ pcm, frame := some () }

inductive SeekErr where
  | invalidWhence : SeekErr
  | frameIndexOutOfRange : SeekErr
  | readFrameFailed : SeekErr
deriving DecidableEq, Repr

/-- The part of `Decoder.Seek` after `npos` has been computed: reset
`pos`, `buf` and `frame`, clamp a negative position to 0, return early at
or past the end, and otherwise re-seek the source and decode. -/
def seekResume (rf : ReadFrameOracle) (d : DecoderM) (npos : Int) :
    Except SeekErr (Int × DecoderM) :=
  let d1 : DecoderM := { d with pos := npos, buf := [], frame := none }
  let d2 : DecoderM := if d1.pos < 0 then { d1 with pos := 0 } else d1
  if d2.length ≠ -1 ∧ d2.length ≤ d2.pos then Except.ok (npos, d2)
  else
    if 0 < d2.pos / d2.bytesPerFrame then
      match d2.frameStarts.get? (d2.pos / d2.bytesPerFrame - 1).toNat with
      | none => Except.error SeekErr.frameIndexOutOfRange
      | some fs =>
        match readFrameM rf { d2 with sourcePos := fs } with
        | none => Except.error SeekErr.readFrameFailed
        | some d3 =>
          match readFrameM rf d3 with
          | none => Except.error SeekErr.readFrameFailed
          | some d4 =>
            Except.ok (npos,
              { d4 with buf := d4.buf.drop (d2.bytesPerFrame + d2.pos % d2.bytesPerFrame).toNat })
    else
      match d2.frameStarts.get? (d2.pos / d2.bytesPerFrame).toNat with
      | none => Except.error SeekErr.frameIndexOutOfRange
      | some fs =>
        match readFrameM rf { d2 with sourcePos := fs } with
        | none => Except.error SeekErr.readFrameFailed
        | some d3 => Except.ok (npos, { d3 with buf := d3.buf.drop d2.pos.toNat })

/-- Embedding of `Decoder.Seek`: the `Seek(0, io.SeekCurrent)` shortcut,
the `whence` switch (`io.SeekStart = 0`, `io.SeekCurrent = 1`,
`io.SeekEnd = 2`), then `seekResume`. -/
def SeekM (rf : ReadFrameOracle) (d : DecoderM) (offset : Int) (whence : Nat) :
    Except SeekErr (Int × DecoderM) :=
  if offset = 0 ∧ whence = 1 then Except.ok (d.pos, d)
  else if whence = 0 then seekResume rf d offset
  else if whence = 1 then seekResume rf d (d.pos + offset)
  else if whence = 2 then seekResume rf d (d.length + offset)
  else Except.error SeekErr.invalidWhence

/-- C10: `Seek(0, io.SeekCurrent)` returns the current PCM byte position
and the decoder state itself, completely unchanged — in particular it
never touches the source, so it succeeds for every oracle, seekable or
not. -/
theorem seek_current_zero_id (rf : ReadFrameOracle) (d : DecoderM) :
    SeekM rf d 0 1 = Except.ok (d.pos, d) := by
  rw [SeekM, if_pos ⟨rfl, rfl⟩]

/-- C7: seeking to an absolute PCM byte position `0 < p < length` computes
the frame index `f = p / bytesPerFrame`; when `f > 0` it seeks the source
to the recorded start of frame `f - 1`, decodes two frames (pre-roll plus
target) and drops the leading `bytesPerFrame + p % bytesPerFrame` bytes of
their PCM; when `f = 0` it seeks to frame 0, decodes one frame, and drops
the leading `p` bytes. -/
theorem seek_policy (rf : ReadFrameOracle) (d : DecoderM) (p : Int)
    (hbpf : 0 < d.bytesPerFrame) (hp1 : 0 < p) (hp2 : p < d.length) :
    (∀ fs sp1 pcm1 sp2 pcm2,
      0 < p / d.bytesPerFrame →
      d.frameStarts.get? (p / d.bytesPerFrame - 1).toNat = some fs →
      rf fs = some (sp1, pcm1) →
      rf sp1 = some (sp2, pcm2) →
      SeekM rf d p 0 = Except.ok (p,
        { d with
          pos := p
          frame := some Unit.unit
          sourcePos := sp2
          buf := (pcm1 ++ pcm2).drop (d.bytesPerFrame + p % d.bytesPerFrame).toNat })) ∧
    (∀ fs sp1 pcm1,
      p / d.bytesPerFrame = 0 →
      d.frameStarts.get? 0 = some fs →
      rf fs = some (sp1, pcm1) →
      SeekM rf d p 0 = Except.ok (p,
        { d with
          pos := p
          frame := some Unit.unit
          sourcePos := sp1
          buf := pcm1.drop p.toNat })) := by
  have hwh : ¬(p = 0 ∧ (0 : Nat) = 1) := by
    intro hc
    omega
  have hncl : ¬p < 0 := by omega
  have hend : ¬(d.length ≠ -1 ∧ d.length ≤ p) := by
    intro hc
    omega
  constructor
  · intro fs sp1 pcm1 sp2 pcm2 hf hidx hrf1 hrf2
    rw [SeekM, if_neg hwh, if_pos rfl]
    simp only [seekResume]
    rw [if_neg hncl]
    rw [if_neg hend, if_pos hf, hidx]
    simp only [readFrameM]
    rw [hrf1]
    simp only []
    rw [hrf2]
    simp
  · intro fs sp1 pcm1 hf hidx hrf1
    rw [SeekM, if_neg hwh, if_pos rfl]
    simp only [seekResume]
    rw [if_neg hncl]
    rw [if_neg hend, if_neg (by rw [hf]; omega)]
    rw [show ((p : Int) / d.bytesPerFrame).toNat = 0 from by rw [hf]; rfl, hidx]
    simp only [readFrameM]
    rw [hrf1]
    simp

/-- Oracle for the C7 witness: the source holds a frame at offset 100
decoding to `[1,2,3,4]` and one at 200 decoding to `[5,6,7,8]`. -/
def c7rf : ReadFrameOracle := fun s =>
  if s = 100 then some (200, [1, 2, 3, 4])
  else if s = 200 then some (300, [5, 6, 7, 8])
  else none

/-- Decoder for the C7 witness: 3 frames of 4 PCM bytes each. -/
def c7dec : DecoderM :=
  { buf := [9, 9], pos := 3, length := 12, frameStarts := [100, 200, 300],
    bytesPerFrame := 4, sourcePos := 50, frame := some Unit.unit }

/-- C7 witness: seeking to byte 5 (frame index 1) seeks the source to the
start of frame 0, decodes two frames, and keeps the last 3 of their 8 PCM
bytes (drops `4 + 5 % 4 = 5`). -/
theorem seek_policy_witness :
    (0 : Int) < c7dec.bytesPerFrame ∧ (0 : Int) < 5 ∧ (5 : Int) < c7dec.length ∧
    SeekM c7rf c7dec 5 0 = Except.ok (5,
      { c7dec with
        pos := 5
        frame := some Unit.unit
        sourcePos := 300
        buf := [6, 7, 8] }) := by
  have h := (seek_policy c7rf c7dec 5 (by decide) (by decide) (by decide)).1
    100 200 [1, 2, 3, 4] 300 [5, 6, 7, 8] (by decide) (by decide) (by decide)
    (by decide)
  refine ⟨by decide, by decide, by decide, ?_⟩
  rw [h]
  rfl
